import Mathlib

/-!
Verification of the response-shaping core of the home-media-mcp repository:
the item/list summarizer (`src/home_media_mcp/utils/formatting.py`), the
grep-style list filter (`src/home_media_mcp/utils/filtering.py`), and the
name-or-id resolver (`src/home_media_mcp/utils/resolution.py`).

Modelling conventions:
- A normalized object (the output of `_make_serializable(item.to_dict())`)
  is a JSON-safe tree `JVal`; a top-level object is an association list
  `List (String × JVal)` whose order models Python dict insertion order.
  Numbers are modelled as integers (the claims do not involve floats) and
  date/time leaves are already normalized to strings.
- Python dict assignment `d[k] = v` is `dictInsert` (replace in place if the
  key is present, append otherwise); `d.get(k)` is `dictGet`.
- The Python slice `xs[:n]` (which for negative `n` drops `-n` trailing
  elements) is `pyTake` over an `Int` bound.
- `list.sort(key=...)` is a stable sort; it is embedded as the stable
  insertion sort `pySort`, whose sortedness, permutation and stability
  properties are proved below.
- The standard-library regex engine (`re`) is external to the repository, so
  `grep_filter` is parametrised by an abstract compiler and matcher.
-/

/-- A JSON-safe value, the result of the serialization normalizer
(`_make_serializable`): scalar leaves plus nested sequences and mappings. -/
inductive JVal where
  | str (s : String)
  | int (n : Int)
  | bool (b : Bool)
  | null
  | arr (xs : List JVal)
  | obj (fields : List (String × JVal))

/-- Scalar test from `summarize_item`:
`isinstance(value, (str, int, float, bool)) or value is None`;
containers (lists and dicts) are the non-scalars. -/
def JVal.isScalar : JVal → Bool
  | .arr _ => false
  | .obj _ => false
  | _ => true

/-- Lower-case hexadecimal digit, as used by `json.dumps` unicode escapes. -/
def hexDigitChar (n : Nat) : Char :=
  if n < 10 then Char.ofNat (48 + n) else Char.ofNat (87 + n)

/-- Four-digit lower-case hexadecimal rendering of `n`, as in `\uXXXX`. -/
def hex4 (n : Nat) : String :=
  String.mk [hexDigitChar (n / 4096 % 16), hexDigitChar (n / 256 % 16),
             hexDigitChar (n / 16 % 16), hexDigitChar (n % 16)]

/-- Escape of a single character inside a JSON string literal, following
`json.dumps` with its default `ensure_ascii=True`: short escapes for
quote, backslash and common control characters, `\uXXXX` for other
characters outside the printable ASCII range `0x20..0x7e`, and surrogate
pairs for code points above `0xFFFF`. -/
def jsonEscapeChar (c : Char) : String :=
  if c = '\\' then "\\\\"
  else if c = '\"' then "\\\""
  else if c = '\n' then "\\n"
  else if c = '\t' then "\\t"
  else if c = '\r' then "\\r"
  else if c = Char.ofNat 8 then "\\b"
  else if c = Char.ofNat 12 then "\\f"
  else if c.toNat < 32 ∨ 126 < c.toNat then
    if c.toNat ≤ 65535 then "\\u" ++ hex4 c.toNat
    else
      "\\u" ++ hex4 (55296 + (c.toNat - 65536) / 1024) ++
      "\\u" ++ hex4 (56320 + (c.toNat - 65536) % 1024)
  else String.mk [c]

/-- JSON rendering of a string: surrounding quotes plus per-character
escapes (`json.dumps` on a `str`). -/
def jsonDumpString (s : String) : String :=
  "\"" ++ String.join (s.data.map jsonEscapeChar) ++ "\""

/-- `", ".join(parts)`: comma-space separated concatenation. -/
def joinComma : List String → String
  | [] => ""
  | [x] => x
  | x :: y :: xs => x ++ ", " ++ joinComma (y :: xs)

mutual

/-- `json.dumps(v)` with default separators `", "` and `": "`:
numbers, booleans and null as their literal text, strings quoted and
escaped, containers rendered recursively. -/
def jsonDump : JVal → String
  | .str s => jsonDumpString s
  | .int n => toString n
  | .bool b => if b then "true" else "false"
  | .null => "null"
  | .arr xs => "[" ++ joinComma (jsonDumpList xs) ++ "]"
  | .obj kvs => "\x7b" ++ joinComma (jsonDumpPairs kvs) ++ "\x7d"

/-- Renders each element of a JSON array. -/
def jsonDumpList : List JVal → List String
  | [] => []
  | x :: xs => jsonDump x :: jsonDumpList xs

/-- Renders each `"key": value` pair of a JSON object. -/
def jsonDumpPairs : List (String × JVal) → List String
  | [] => []
  | (k, v) :: kvs => (jsonDumpString k ++ ": " ++ jsonDump v) :: jsonDumpPairs kvs

end

/-- `k in d` for a Python dict modelled as an association list. -/
def dictMem (d : List (String × JVal)) (k : String) : Bool :=
  d.any (fun kv => decide (kv.1 = k))

/-- `d.get(k)`: the value bound to `k`, if any. -/
def dictGet (d : List (String × JVal)) (k : String) : Option JVal :=
  (List.find? (fun kv => decide (kv.1 = k)) d).map Prod.snd

/-- `d[k] = v` on a Python dict: replace in place when the key is present
(insertion order is kept), append a new binding otherwise. -/
def dictInsert (d : List (String × JVal)) (k : String) (v : JVal) :
    List (String × JVal) :=
  if dictMem d k then d.map (fun kv => if kv.1 = k then (k, v) else kv)
  else d ++ [(k, v)]

/-- A sequence of Python dict assignments `for k, v in l: d[k] = v`;
also models `d.update(l)`. -/
def insertAll (init : List (String × JVal)) (l : List (String × JVal)) :
    List (String × JVal) :=
  l.foldl (fun r kv => dictInsert r kv.1 kv.2) init

/-- The Python slice `xs[:n]`: for nonnegative `n` the first `n` elements
(clamped), for negative `n` all but the last `-n` elements (clamped). -/
def pyTake {α : Type} (xs : List α) (n : Int) : List α :=
  if 0 ≤ n then xs.take n.toNat else xs.take (xs.length - (-n).toNat)

/-- The sort key of `summarize_item`:
`len(json.dumps(value, default=str))` of a field's value. -/
def sortKey (kv : String × JVal) : Nat := (jsonDump kv.2).length

/-- Boolean comparison on the sort key (ascending serialized length). -/
def sortLE (a b : String × JVal) : Bool := decide (sortKey a ≤ sortKey b)

/-- One step of a stable insertion: `kv` is placed after every element
whose key is ≤ its own, so elements comparing equal keep their original
relative order. -/
def insortOne (kv : String × JVal) :
    List (String × JVal) → List (String × JVal)
  | [] => [kv]
  | y :: ys => if sortLE y kv then y :: insortOne kv ys else kv :: y :: ys

/-- `scalar_fields.sort(key=lambda kv: len(json.dumps(kv[1], default=str)))`:
Python's `list.sort` is a stable sort; it is embedded as a stable insertion
sort (sortedness, permutation and stability are proved below). -/
def pySort (l : List (String × JVal)) : List (String × JVal) :=
  l.foldl (fun acc kv => insortOne kv acc) []

/-- The scalar-field selection loop of `summarize_item`: every field other
than `"id"` whose value is a scalar, in original order. -/
def scalarFields (full : List (String × JVal)) : List (String × JVal) :=
  full.filter (fun kv => decide (kv.1 ≠ "id") && JVal.isScalar kv.2)

/-- The non-id scalar fields sorted ascending by serialized length. -/
def sortedScalars (full : List (String × JVal)) : List (String × JVal) :=
  pySort (scalarFields full)

/-- `id_value = full.get("id")` followed by the `if id_value is not None`
test: a binding to JSON null behaves exactly like an absent key. -/
def pinId : Option JVal → Option JVal
  | some JVal.null => none
  | some v => some v
  | none => none

/-- `summarize_item(item, max_fields)` from
`src/home_media_mcp/utils/formatting.py`, acting on the normalized form
`full = _make_serializable(item.to_dict())`: pin the `"id"` field when its
value is not null (reserving one slot), sort the remaining scalar fields by
serialized length, and emit the smallest ones up to the remaining budget. -/
def summarize_item (full : List (String × JVal)) (max_fields : Int) :
    List (String × JVal) :=
  match pinId (dictGet full "id") with
  | some v => insertAll [("id", v)] (pyTake (sortedScalars full) (max_fields - 1))
  | none => insertAll [] (pyTake (sortedScalars full) max_fields)

/-- One iteration of the preserve loop:
`if field in full and field not in result: result[field] = full[field]`. -/
def preserveStep (full : List (String × JVal)) (r : List (String × JVal))
    (field : String) : List (String × JVal) :=
  match dictGet full field with
  | some v => if dictMem r field then r else r ++ [(field, v)]
  | none => r

/-- `_summarize_item_with_preserve(item, max_fields, preserve_fields)`:
the plain summary, then each preserved field copied verbatim from the full
normalized object when present there and absent from the summary.
(`if preserve_fields:` skips both `None` and the empty list; folding over
the empty list is already the identity.) -/
def _summarize_item_with_preserve (full : List (String × JVal))
    (max_fields : Int) (preserve_fields : Option (List String)) :
    List (String × JVal) :=
  match preserve_fields with
  | some pf => pf.foldl (preserveStep full) (summarize_item full max_fields)
  | none => summarize_item full max_fields

/-- The shape returned by `summarize_list`:
`{"summary": {...}, "items": [...]}`. -/
structure ListSummaryResult where
  summary : List (String × JVal)
  items : List (List (String × JVal))

/-- `summarize_list(items, max_fields, summary_fn, preserve_fields)`:
a summary dict starting from `{"total": len(items)}`, updated with the
aggregate callback's result when one is supplied, plus the per-item
summaries. -/
def summarize_list (items : List (List (String × JVal))) (max_fields : Int)
    (summary_fn : Option (List (List (String × JVal)) → List (String × JVal)))
    (preserve_fields : Option (List String)) : ListSummaryResult :=
  let base := [("total", JVal.int items.length)]
  { summary :=
      match summary_fn with
      | some f => insertAll base (f items)
      | none => base
    items := items.map
      (fun it => _summarize_item_with_preserve it max_fields preserve_fields) }

/-- `full_detail(item)`: the complete normalized object, untouched. -/
def full_detail (full : List (String × JVal)) : List (String × JVal) := full

/-- The `ToolError` message raised by `grep_filter` on a pattern the regex
compiler rejects: `f"Invalid grep pattern '{pattern}': {e}"`. -/
def invalidPatternMessage (pattern e : String) : String :=
  "Invalid grep pattern \x27" ++ pattern ++ "\x27: " ++ e

/-- `grep_filter(items, pattern)` from
`src/home_media_mcp/utils/filtering.py`. The `re` module is external to the
repository, so the case-insensitive compilation `re.compile(p, re.IGNORECASE)`
and the matcher `compiled.search` are abstract parameters; each item is
serialized to its canonical JSON string before matching. Thrown `ToolError`s
are modelled as the `Except.error` branch. -/
def grep_filter {R : Type} (compileRegex : String → Except String R)
    (regexSearch : R → String → Bool)
    (items : List (List (String × JVal))) (pattern : Option String) :
    Except String (List (List (String × JVal))) :=
  match pattern with
  | none => Except.ok items
  | some p =>
    match compileRegex p with
    | Except.error e => Except.error (invalidPatternMessage p e)
    | Except.ok compiled =>
        Except.ok (items.filter (fun item => regexSearch compiled (jsonDump (JVal.obj item))))

/-- A resolver candidate: an object with an `id` attribute and the
configured name attribute (`name` for quality profiles, `label` for tags),
whose value may be `None`. -/
structure RItem where
  id : Int
  name : Option String
deriving DecidableEq

/-- A root folder candidate: an object with `id` and `path` attributes,
the path possibly `None`. -/
structure RootFolder where
  id : Int
  path : Option String
deriving DecidableEq

/-- A caller-supplied `str | int` token. -/
inductive NameOrId where
  | int (n : Int)
  | str (s : String)
deriving DecidableEq

/-- Python `str.isdigit()`: nonempty and all digits. -/
def pyIsDigit (s : String) : Bool := !s.isEmpty && s.data.all Char.isDigit

/-- `int(s)` on a digit string. -/
def digitsToNat (s : String) : Nat :=
  s.data.foldl (fun a c => 10 * a + (c.toNat - 48)) 0

/-- The numeric reading of a token, when the resolver treats it as an
identifier: any `int`, or any digit string via `int(s)`. -/
def tokenNum : NameOrId → Option Int
  | .int n => some n
  | .str s => if pyIsDigit s then some (digitsToNat s) else none

/-- Python `str.lower()` (ASCII lowering, as in the names and paths the
resolver compares). -/
def pyLower (s : String) : String := String.mk (s.data.map Char.toLower)

/-- Python `str.title()`: the first letter of every alphabetic run is
upper-cased, the rest lower-cased. -/
def pyTitle (s : String) : String :=
  (s.data.foldl
    (fun (acc : String × Bool) c =>
      (acc.1.push (if acc.2 then c.toUpper else c.toLower), !c.isAlpha))
    ("", true)).1

/-- The rendering of a `None`-able attribute inside an f-string. -/
def pyShowOpt : Option String → String
  | some s => s
  | none => "None"

/-- `f"{item.id}: {getattr(item, name_attr, '?')}"` (the attribute exists on
every candidate object, so a `None` value prints as `"None"`). -/
def pairString (item : RItem) : String :=
  toString item.id ++ ": " ++ pyShowOpt item.name

/-- `f"{f.id}: {f.path}"` for a root folder. -/
def folderPair (f : RootFolder) : String :=
  toString f.id ++ ": " ++ pyShowOpt f.path

/-- `f"{entity_type.title()} with ID {target_id} not found."`. -/
def notFoundMessage (entity : String) (target : Int) : String :=
  pyTitle entity ++ " with ID " ++ toString target ++ " not found."

/-- `f"No {entity_type} matching '{name_or_id}'. Available: ..."`. -/
def noMatchMessage (entity token : String) (items : List RItem) : String :=
  "No " ++ entity ++ " matching \x27" ++ token ++ "\x27. Available: " ++
    joinComma (items.map pairString)

/-- `f"Ambiguous {entity_type} '{name_or_id}' matches multiple: ...` plus
the instruction to retry with a numeric id. -/
def ambiguousMessage (entity token : String) (ms : List RItem) : String :=
  "Ambiguous " ++ entity ++ " \x27" ++ token ++ "\x27 matches multiple: " ++
    joinComma (ms.map pairString) ++ ". Use the numeric ID instead."

/-- The name-match filter:
`(getattr(item, name_attr, None) or "").lower() == name_lower`. -/
def nameMatches (items : List RItem) (nameLower : String) : List RItem :=
  items.filter (fun item => decide ((pyLower (item.name.getD "")) = nameLower))

/-- `_resolve_by_name_or_id(name_or_id, items, name_attr, entity_type)` from
`src/home_media_mcp/utils/resolution.py`: numeric passthrough for an `int`
or digit-string token, case-insensitive exact name match otherwise, failing
on zero matches (NotFound) or several (Ambiguous). -/
def _resolve_by_name_or_id (name_or_id : NameOrId) (items : List RItem)
    (entity_type : String) : Except String Int :=
  match name_or_id with
  | .int n =>
      if items.any (fun item => decide (item.id = n)) then Except.ok n
      else Except.error (notFoundMessage entity_type n)
  | .str s =>
      if pyIsDigit s then
        let target_id : Int := digitsToNat s
        if items.any (fun item => decide (item.id = target_id)) then Except.ok target_id
        else Except.error (notFoundMessage entity_type target_id)
      else
        let ms := nameMatches items (pyLower s)
        match ms with
        | [] => Except.error (noMatchMessage entity_type s items)
        | [m] => Except.ok m.id
        | _ :: _ :: _ => Except.error (ambiguousMessage entity_type s ms)

/-- `resolve_quality_profile`: the generic resolver over the `name`
attribute with entity type "quality profile". -/
def resolve_quality_profile (name_or_id : NameOrId) (profiles : List RItem) :
    Except String Int :=
  _resolve_by_name_or_id name_or_id profiles "quality profile"

/-- `resolve_tag`: the generic resolver over the `label` attribute with
entity type "tag". -/
def resolve_tag (name_or_id : NameOrId) (tags : List RItem) :
    Except String Int :=
  _resolve_by_name_or_id name_or_id tags "tag"

/-- `f"Root folder with ID {target_id} not found."`. -/
def rootNotFoundMessage (target : Int) : String :=
  "Root folder with ID " ++ toString target ++ " not found."

/-- `f"No root folder matching '{path_or_id}'. Available: ..."`. -/
def rootNoMatchMessage (token : String) (folders : List RootFolder) : String :=
  "No root folder matching \x27" ++ token ++ "\x27. Available: " ++
    joinComma (folders.map folderPair)

/-- `f"Ambiguous root folder '{path_or_id}' matches multiple: ..."` plus the
instruction to retry with a numeric id. -/
def rootAmbiguousMessage (token : String) (ms : List RootFolder) : String :=
  "Ambiguous root folder \x27" ++ token ++ "\x27 matches multiple: " ++
    joinComma (ms.map folderPair) ++ ". Use the numeric ID instead."

/-- Byte-for-byte prefix test on character lists (kernel-computable). -/
def charsPrefixOf : List Char → List Char → Bool
  | [], _ => true
  | _ :: _, [] => false
  | a :: as, b :: bs => a = b && charsPrefixOf as bs

/-- Substring occurrence test on character lists (kernel-computable). -/
def charsInfixOf (needle : List Char) : List Char → Bool
  | [] => charsPrefixOf needle []
  | c :: cs => charsPrefixOf needle (c :: cs) || charsInfixOf needle cs

/-- Python substring test `needle in haystack`. -/
def pyIn (needle haystack : String) : Bool :=
  charsInfixOf needle.data haystack.data

/-- The substring filter of `resolve_root_folder`:
`path_lower in (f.path or "").lower()`. -/
def folderMatches (folders : List RootFolder) (pathLower : String) :
    List RootFolder :=
  folders.filter (fun f => pyIn pathLower (pyLower (f.path.getD "")))

/-- `resolve_root_folder(path_or_id, folders)` from
`src/home_media_mcp/utils/resolution.py`: numeric passthrough for an `int`
or digit-string token, case-insensitive path-substring match otherwise,
failing on zero matches (NotFound) or several (Ambiguous). -/
def resolve_root_folder (path_or_id : NameOrId) (folders : List RootFolder) :
    Except String Int :=
  match path_or_id with
  | .int n =>
      if folders.any (fun f => decide (f.id = n)) then Except.ok n
      else Except.error (rootNotFoundMessage n)
  | .str s =>
      if pyIsDigit s then
        let target_id : Int := digitsToNat s
        if folders.any (fun f => decide (f.id = target_id)) then Except.ok target_id
        else Except.error (rootNotFoundMessage target_id)
      else
        let ms := folderMatches folders (pyLower s)
        match ms with
        | [] => Except.error (rootNoMatchMessage s folders)
        | [m] => Except.ok m.id
        | _ :: _ :: _ => Except.error (rootAmbiguousMessage s ms)

/-! Lemmas about the Python-dict primitives. -/

theorem dictMem_eq_false_iff {d : List (String × JVal)} {k : String} :
    dictMem d k = false ↔ ∀ kv ∈ d, kv.1 ≠ k := by
  simp [dictMem, List.any_eq_false]

theorem dictMem_eq_true_iff {d : List (String × JVal)} {k : String} :
    dictMem d k = true ↔ ∃ kv ∈ d, kv.1 = k := by
  simp [dictMem, List.any_eq_true]

theorem dictGet_isSome_iff {d : List (String × JVal)} {k : String} :
    (dictGet d k).isSome = true ↔ ∃ kv ∈ d, kv.1 = k := by
  simp [dictGet, List.find?_isSome]

theorem find?_map_keyReplace {k k' : String} {v : JVal} (h : k' ≠ k)
    (d : List (String × JVal)) :
    List.find? (fun kv => decide (kv.1 = k'))
        (d.map (fun kv => if kv.1 = k then (k, v) else kv)) =
      List.find? (fun kv => decide (kv.1 = k')) d := by
  induction d with
  | nil => rfl
  | cons kv t ih =>
    obtain ⟨a, b⟩ := kv
    rw [List.map_cons]
    by_cases hk : a = k
    · subst hk
      rw [if_pos rfl, List.find?_cons_of_neg _ (by simpa using Ne.symm h),
        List.find?_cons_of_neg _ (by simpa using Ne.symm h), ih]
    · rw [if_neg (by simpa using hk)]
      by_cases hk' : a = k'
      · rw [List.find?_cons_of_pos _ (by simpa using hk'),
          List.find?_cons_of_pos _ (by simpa using hk')]
      · rw [List.find?_cons_of_neg _ (by simpa using hk'),
          List.find?_cons_of_neg _ (by simpa using hk'), ih]

theorem dictGet_append {d l : List (String × JVal)} {k : String} :
    dictGet (d ++ l) k = (dictGet d k).or (dictGet l k) := by
  simp only [dictGet, List.find?_append]
  cases List.find? (fun kv => decide (kv.1 = k)) d <;> simp

theorem dictGet_append_of_some {d l : List (String × JVal)} {k : String}
    {v : JVal} (h : dictGet d k = some v) : dictGet (d ++ l) k = some v := by
  simp [dictGet_append, h]

theorem dictGet_append_of_none {d l : List (String × JVal)} {k : String}
    (h : dictGet d k = none) : dictGet (d ++ l) k = dictGet l k := by
  simp [dictGet_append, h]

theorem dictGet_dictInsert_ne {d : List (String × JVal)} {k k' : String}
    {v : JVal} (h : k' ≠ k) :
    dictGet (dictInsert d k v) k' = dictGet d k' := by
  unfold dictInsert
  by_cases hm : dictMem d k
  · simp [hm, dictGet, find?_map_keyReplace h]
  · simp only [hm, if_false, Bool.false_eq_true]
    rw [dictGet_append]
    have : dictGet [(k, v)] k' = none := by
      unfold dictGet
      rw [List.find?_cons_of_neg _ (by simpa using Ne.symm h)]
      rfl
    simp [this]

theorem dictGet_insertAll_ne {l : List (String × JVal)} {k' : String}
    (h : ∀ kv ∈ l, kv.1 ≠ k') :
    ∀ init, dictGet (insertAll init l) k' = dictGet init k' := by
  induction l with
  | nil => intro init; rfl
  | cons kv t ih =>
    intro init
    have step : insertAll init (kv :: t) = insertAll (dictInsert init kv.1 kv.2) t := rfl
    rw [step, ih (fun x hx => h x (List.mem_cons_of_mem kv hx)),
      dictGet_dictInsert_ne (fun e => h kv (List.mem_cons_self kv t) e.symm)]

theorem length_dictInsert_le (d : List (String × JVal)) (k : String) (v : JVal) :
    (dictInsert d k v).length ≤ d.length + 1 := by
  unfold dictInsert
  by_cases hm : dictMem d k <;> simp [hm]

theorem length_insertAll_le (l : List (String × JVal)) :
    ∀ init, (insertAll init l).length ≤ init.length + l.length := by
  induction l with
  | nil => intro init; simp [insertAll]
  | cons kv t ih =>
    intro init
    have step : insertAll init (kv :: t) = insertAll (dictInsert init kv.1 kv.2) t := rfl
    rw [step]
    calc (insertAll (dictInsert init kv.1 kv.2) t).length
        ≤ (dictInsert init kv.1 kv.2).length + t.length := ih _
      _ ≤ (init.length + 1) + t.length := by
          exact Nat.add_le_add_right (length_dictInsert_le init kv.1 kv.2) t.length
      _ = init.length + (kv :: t).length := by simp; omega

theorem insertAll_eq_append {l : List (String × JVal)} :
    ∀ init, (∀ kv ∈ l, dictMem init kv.1 = false) →
      (l.map Prod.fst).Nodup → insertAll init l = init ++ l := by
  induction l with
  | nil => intro init _ _; simp [insertAll]
  | cons kv t ih =>
    intro init hfresh hnd
    have step : insertAll init (kv :: t) = insertAll (dictInsert init kv.1 kv.2) t := rfl
    have hins : dictInsert init kv.1 kv.2 = init ++ [kv] := by
      unfold dictInsert
      simp [hfresh kv (List.mem_cons_self kv t)]
    have hnd' : (t.map Prod.fst).Nodup := (List.nodup_cons.mp (by simpa using hnd)).2
    have hkv : kv.1 ∉ t.map Prod.fst := (List.nodup_cons.mp (by simpa using hnd)).1
    have hfresh' : ∀ kv' ∈ t, dictMem (init ++ [kv]) kv'.1 = false := by
      intro kv' hkv'
      have h1 : dictMem init kv'.1 = false := hfresh kv' (List.mem_cons_of_mem kv hkv')
      have h2 : kv.1 ≠ kv'.1 := by
        intro e
        exact hkv (e ▸ List.mem_map_of_mem Prod.fst hkv')
      simp [dictMem, List.any_append] at h1 ⊢
      exact ⟨by simpa [dictMem] using h1, h2⟩
    rw [step, hins, ih (init ++ [kv]) hfresh' hnd']
    simp

/-! Lemmas about the stable sort embedding of `list.sort(key=...)`. -/

theorem sortLE_trans {a b c : String × JVal} (h1 : sortLE a b = true)
    (h2 : sortLE b c = true) : sortLE a c = true := by
  simp [sortLE] at h1 h2 ⊢
  omega

theorem sortLE_of_not {a b : String × JVal} (h : ¬ sortLE a b = true) :
    sortLE b a = true := by
  simp [sortLE] at h ⊢
  omega

theorem insortOne_perm (kv : String × JVal) :
    ∀ acc, (insortOne kv acc).Perm (kv :: acc) := by
  intro acc
  induction acc with
  | nil => exact List.Perm.refl _
  | cons y ys ih =>
    by_cases hle : sortLE y kv = true
    · simp only [insortOne, hle, if_true]
      exact (ih.cons y).trans (List.Perm.swap kv y ys)
    · simp only [insortOne, hle, if_false, Bool.false_eq_true]
      exact List.Perm.refl _

theorem pairwise_insortOne {kv : String × JVal} :
    ∀ {acc}, acc.Pairwise (fun a b => sortLE a b = true) →
      (insortOne kv acc).Pairwise (fun a b => sortLE a b = true) := by
  intro acc h
  induction acc with
  | nil => simp [insortOne]
  | cons y ys ih =>
    obtain ⟨h1, h2⟩ := List.pairwise_cons.mp h
    by_cases hle : sortLE y kv = true
    · simp only [insortOne, hle, if_true]
      refine List.pairwise_cons.mpr ⟨?_, ih h2⟩
      intro z hz
      rcases List.mem_cons.mp ((insortOne_perm kv ys).mem_iff.mp hz) with hz' | hz'
      · exact hz' ▸ hle
      · exact h1 z hz'
    · simp only [insortOne, hle, if_false, Bool.false_eq_true]
      refine List.pairwise_cons.mpr ⟨?_, h⟩
      intro z hz
      rcases List.mem_cons.mp hz with hz' | hz'
      · exact hz' ▸ sortLE_of_not hle
      · exact sortLE_trans (sortLE_of_not hle) (h1 z hz')

theorem foldl_insort_perm (l : List (String × JVal)) :
    ∀ acc, (l.foldl (fun a kv => insortOne kv a) acc).Perm (acc ++ l) := by
  induction l with
  | nil => intro acc; simp
  | cons kv t ih =>
    intro acc
    have step : (kv :: t).foldl (fun a kv => insortOne kv a) acc =
        t.foldl (fun a kv => insortOne kv a) (insortOne kv acc) := rfl
    rw [step]
    refine ((ih (insortOne kv acc)).trans ?_)
    refine (((insortOne_perm kv acc).append_right t).trans ?_)
    exact List.perm_middle.symm

theorem pySort_perm (l : List (String × JVal)) : (pySort l).Perm l := by
  simpa [pySort] using foldl_insort_perm l []

theorem foldl_insort_pairwise (l : List (String × JVal)) :
    ∀ acc, acc.Pairwise (fun a b => sortLE a b = true) →
      (l.foldl (fun a kv => insortOne kv a) acc).Pairwise
        (fun a b => sortLE a b = true) := by
  induction l with
  | nil => intro acc h; exact h
  | cons kv t ih => intro acc h; exact ih (insortOne kv acc) (pairwise_insortOne h)

theorem pySort_pairwise (l : List (String × JVal)) :
    (pySort l).Pairwise (fun a b => sortLE a b = true) :=
  foldl_insort_pairwise l [] (List.Pairwise.nil)

theorem filter_insortOne_neg {p : String × JVal → Bool} {kv : String × JVal}
    (hp : p kv = false) :
    ∀ acc, (insortOne kv acc).filter p = acc.filter p := by
  intro acc
  induction acc with
  | nil => simp [insortOne, List.filter, hp]
  | cons y ys ih =>
    by_cases hle : sortLE y kv = true
    · simp only [insortOne, hle, if_true]
      by_cases hy : p y = true <;> simp [List.filter_cons, hy, ih]
    · simp only [insortOne, hle, if_false, Bool.false_eq_true]
      simp [List.filter_cons, hp]

theorem filter_insortOne_pos {p : String × JVal → Bool} {kv : String × JVal}
    (hp : p kv = true) :
    ∀ acc, acc.Pairwise (fun a b => sortLE a b = true) →
      (∀ y ∈ acc, p y = true → sortLE y kv = true) →
      (insortOne kv acc).filter p = acc.filter p ++ [kv] := by
  intro acc
  induction acc with
  | nil => simp [insortOne, List.filter, hp]
  | cons y ys ih =>
    intro hsorted htied
    obtain ⟨h1, h2⟩ := List.pairwise_cons.mp hsorted
    by_cases hle : sortLE y kv = true
    · simp only [insortOne, hle, if_true]
      have hrec := ih h2 (fun z hz hpz => htied z (List.mem_cons_of_mem y hz) hpz)
      by_cases hy : p y = true <;> simp [List.filter_cons, hy, hrec]
    · simp only [insortOne, hle, if_false, Bool.false_eq_true]
      have hnil : (y :: ys).filter p = [] := by
        rw [List.filter_eq_nil_iff]
        intro z hz hpz
        rcases List.mem_cons.mp hz with hz' | hz'
        · exact hle (hz' ▸ htied z hz hpz)
        · exact hle (sortLE_trans (h1 z hz') (htied z hz hpz))
      simp [List.filter_cons, hp, hnil]

theorem foldl_insort_filter {p : String × JVal → Bool}
    (htied : ∀ a b, p a = true → p b = true → sortLE a b = true) :
    ∀ (l acc : List (String × JVal)),
      acc.Pairwise (fun a b => sortLE a b = true) →
      (l.foldl (fun a kv => insortOne kv a) acc).filter p =
        acc.filter p ++ l.filter p := by
  intro l
  induction l with
  | nil => intro acc _; simp
  | cons kv t ih =>
    intro acc hsorted
    have step : (kv :: t).foldl (fun a kv => insortOne kv a) acc =
        t.foldl (fun a kv => insortOne kv a) (insortOne kv acc) := rfl
    rw [step, ih (insortOne kv acc) (pairwise_insortOne hsorted)]
    by_cases hp : p kv = true
    · rw [filter_insortOne_pos hp acc hsorted
        (fun y _ hpy => htied y kv hpy hp)]
      simp [List.filter_cons, hp]
    · rw [filter_insortOne_neg (Bool.eq_false_iff.mpr hp) acc]
      simp [List.filter_cons, hp]

theorem pySort_filter_stable {p : String × JVal → Bool}
    (htied : ∀ a b, p a = true → p b = true → sortLE a b = true)
    (l : List (String × JVal)) : (pySort l).filter p = l.filter p := by
  simpa [pySort] using foldl_insort_filter htied l [] (List.Pairwise.nil)

/-! Lemmas about `pyTake` and the summarizer pipeline. -/

theorem pyTake_sublist {α : Type} (xs : List α) (n : Int) :
    (pyTake xs n).Sublist xs := by
  unfold pyTake
  by_cases h : 0 ≤ n <;> simp [h, List.take_sublist]

theorem length_pyTake_le {α : Type} (xs : List α) {n : Int} (h : 0 ≤ n) :
    (pyTake xs n).length ≤ n.toNat := by
  simp [pyTake, h, List.length_take_le]

theorem mem_scalarFields_ne_id {full : List (String × JVal)}
    {kv : String × JVal} (h : kv ∈ scalarFields full) : kv.1 ≠ "id" := by
  have := (List.mem_filter.mp h).2
  simp only [Bool.and_eq_true, decide_eq_true_eq] at this
  exact this.1

theorem mem_scalarFields_scalar {full : List (String × JVal)}
    {kv : String × JVal} (h : kv ∈ scalarFields full) :
    JVal.isScalar kv.2 = true := by
  have := (List.mem_filter.mp h).2
  simp only [Bool.and_eq_true, decide_eq_true_eq] at this
  exact this.2

theorem mem_sortedScalars_ne_id {full : List (String × JVal)}
    {kv : String × JVal} (h : kv ∈ sortedScalars full) : kv.1 ≠ "id" :=
  mem_scalarFields_ne_id ((pySort_perm (scalarFields full)).mem_iff.mp h)

theorem nodup_keys_sortedScalars {full : List (String × JVal)}
    (hnd : (full.map Prod.fst).Nodup) :
    ((sortedScalars full).map Prod.fst).Nodup := by
  have h1 : ((scalarFields full).map Prod.fst).Nodup :=
    List.Nodup.sublist (List.Sublist.map Prod.fst (List.filter_sublist full)) hnd
  exact (((pySort_perm (scalarFields full)).map Prod.fst).nodup_iff).mpr h1

theorem pinId_some {v : JVal} (hnn : v ≠ JVal.null) : pinId (some v) = some v := by
  cases v with
  | null => exact absurd rfl hnn
  | str s => rfl
  | int n => rfl
  | bool b => rfl
  | arr xs => rfl
  | obj fields => rfl

theorem summarize_item_pinned {full : List (String × JVal)} {v : JVal}
    (hv : dictGet full "id" = some v) (hnn : v ≠ JVal.null)
    (hnd : (full.map Prod.fst).Nodup) (max_fields : Int) :
    summarize_item full max_fields =
      ("id", v) :: pyTake (sortedScalars full) (max_fields - 1) := by
  have hfresh : ∀ kv ∈ pyTake (sortedScalars full) (max_fields - 1),
      dictMem [("id", v)] kv.1 = false := by
    intro kv hkv
    have hne : kv.1 ≠ "id" :=
      mem_sortedScalars_ne_id ((pyTake_sublist _ _).subset hkv)
    simp [dictMem]
    exact Ne.symm hne
  have hnd' : ((pyTake (sortedScalars full) (max_fields - 1)).map Prod.fst).Nodup :=
    List.Nodup.sublist (List.Sublist.map Prod.fst (pyTake_sublist _ _))
      (nodup_keys_sortedScalars hnd)
  unfold summarize_item
  rw [hv, pinId_some hnn]
  show insertAll [("id", v)] (pyTake (sortedScalars full) (max_fields - 1)) =
      ("id", v) :: pyTake (sortedScalars full) (max_fields - 1)
  rw [insertAll_eq_append [("id", v)] hfresh hnd']
  rfl

theorem summarize_item_unpinned {full : List (String × JVal)}
    (hv : pinId (dictGet full "id") = none)
    (hnd : (full.map Prod.fst).Nodup) (max_fields : Int) :
    summarize_item full max_fields = pyTake (sortedScalars full) max_fields := by
  have hfresh : ∀ kv ∈ pyTake (sortedScalars full) max_fields,
      dictMem ([] : List (String × JVal)) kv.1 = false := by
    intro kv _
    rfl
  have hnd' : ((pyTake (sortedScalars full) max_fields).map Prod.fst).Nodup :=
    List.Nodup.sublist (List.Sublist.map Prod.fst (pyTake_sublist _ _))
      (nodup_keys_sortedScalars hnd)
  unfold summarize_item
  rw [hv]
  show insertAll [] (pyTake (sortedScalars full) max_fields) =
      pyTake (sortedScalars full) max_fields
  rw [insertAll_eq_append [] hfresh hnd']
  rfl

/-! String-infix helpers for reasoning about error-message contents. -/

theorem strInfix_append_right {t s : String} (p : String)
    (h : t.data <:+: s.data) : t.data <:+: (p ++ s).data := by
  obtain ⟨u, w, hw⟩ := h
  exact ⟨p.data ++ u, w, by rw [String.data_append, ← hw]; simp⟩

theorem strInfix_append_left {t s : String} (q : String)
    (h : t.data <:+: s.data) : t.data <:+: (s ++ q).data := by
  obtain ⟨u, w, hw⟩ := h
  exact ⟨u, w ++ q.data, by rw [String.data_append, ← hw]; simp⟩

theorem strInfix_refl (s : String) : s.data <:+: s.data :=
  ⟨[], [], by simp⟩

theorem mem_joinComma {s : String} :
    ∀ {l : List String}, s ∈ l → s.data <:+: (joinComma l).data := by
  intro l
  induction l with
  | nil => intro h; exact absurd h (List.not_mem_nil s)
  | cons x t ih =>
    intro h
    match t, ih with
    | [], _ =>
      have : s = x := by simpa using h
      exact this ▸ strInfix_refl s
    | y :: xs, ih =>
      rcases List.mem_cons.mp h with h' | h'
      · subst h'
        show s.data <:+: ((s ++ ", ") ++ joinComma (y :: xs)).data
        exact strInfix_append_left _ (strInfix_append_left _ (strInfix_refl s))
      · show s.data <:+: ((x ++ ", ") ++ joinComma (y :: xs)).data
        exact strInfix_append_right _ (ih h')

/-! Lemmas about the preserve-fields loop. -/

theorem dictGet_preserveStep_some {full r : List (String × JVal)}
    {field' field : String} {v : JVal} (h : dictGet r field = some v) :
    dictGet (preserveStep full r field') field = some v := by
  unfold preserveStep
  cases hfull : dictGet full field' with
  | none => exact h
  | some v' =>
    by_cases hm : dictMem r field' = true
    · simp [hm, h]
    · simp [hm]
      exact dictGet_append_of_some h

theorem foldl_preserveStep_some {full : List (String × JVal)}
    {field : String} {v : JVal} :
    ∀ (pf : List String) (r : List (String × JVal)),
      dictGet r field = some v →
      dictGet (pf.foldl (preserveStep full) r) field = some v := by
  intro pf
  induction pf with
  | nil => intro r h; exact h
  | cons f' t ih => intro r h; exact ih _ (dictGet_preserveStep_some h)

theorem dictMem_eq_true_of_some {d : List (String × JVal)} {k : String}
    {v : JVal} (h : dictGet d k = some v) : dictMem d k = true := by
  rw [dictMem_eq_true_iff, ← dictGet_isSome_iff, h]
  rfl

theorem foldl_preserveStep_adds {full : List (String × JVal)}
    {field : String} {v : JVal} (hfull : dictGet full field = some v) :
    ∀ (pf : List String) (r : List (String × JVal)), field ∈ pf →
      (dictGet r field = none ∨ dictGet r field = some v) →
      dictGet (pf.foldl (preserveStep full) r) field = some v := by
  intro pf
  induction pf with
  | nil => intro r hmem _; exact absurd hmem (List.not_mem_nil field)
  | cons f' t ih =>
    intro r hmem hr
    by_cases hf : f' = field
    · subst hf
      show dictGet (t.foldl (preserveStep full) (preserveStep full r f')) f' = some v
      by_cases hm : dictMem r f' = true
      · have hsome : dictGet r f' = some v := by
          rcases hr with hr | hr
          · exfalso
            have h2 := dictGet_isSome_iff.mpr (dictMem_eq_true_iff.mp hm)
            rw [hr] at h2
            simp at h2
          · exact hr
        have : preserveStep full r f' = r := by
          unfold preserveStep
          rw [hfull]
          simp [hm]
        rw [this]
        exact foldl_preserveStep_some t r hsome
      · have hstep : preserveStep full r f' = r ++ [(f', v)] := by
          unfold preserveStep
          rw [hfull]
          simp [hm]
        rw [hstep]
        refine foldl_preserveStep_some t _ ?_
        rcases hr with hr | hr
        · rw [dictGet_append_of_none hr]
          simp [dictGet]
        · exact dictGet_append_of_some hr
    · have hmem' : field ∈ t := by
        rcases List.mem_cons.mp hmem with h' | h'
        · exact absurd h'.symm hf
        · exact h'
      refine ih (preserveStep full r f') hmem' ?_
      unfold preserveStep
      cases hfull' : dictGet full f' with
      | none => exact hr
      | some v' =>
        by_cases hm : dictMem r f' = true
        · simpa [hm] using hr
        · simp [hm]
          rcases hr with hr | hr
          · left
            rw [dictGet_append_of_none hr]
            unfold dictGet
            rw [List.find?_cons_of_neg _ (by simpa using hf)]
            rfl
          · right
            exact dictGet_append_of_some hr

theorem length_preserveStep_le (full r : List (String × JVal)) (f : String) :
    (preserveStep full r f).length ≤ r.length + 1 := by
  unfold preserveStep
  cases dictGet full f with
  | none => exact Nat.le_succ r.length
  | some v =>
    by_cases hm : dictMem r f = true <;> simp [hm]

theorem length_foldl_preserveStep_le (full : List (String × JVal)) :
    ∀ (pf : List String) (r : List (String × JVal)),
      (pf.foldl (preserveStep full) r).length ≤ r.length + pf.length := by
  intro pf
  induction pf with
  | nil => intro r; simp
  | cons f t ih =>
    intro r
    calc (t.foldl (preserveStep full) (preserveStep full r f)).length
        ≤ (preserveStep full r f).length + t.length := ih _
      _ ≤ (r.length + 1) + t.length := by
          exact Nat.add_le_add_right (length_preserveStep_le full r f) t.length
      _ = r.length + (f :: t).length := by simp; omega

/-! The substring scan agrees with list-infix membership. -/

theorem charsPrefixOf_iff : ∀ (a b : List Char), charsPrefixOf a b = true ↔ a <+: b := by
  intro a
  induction a with
  | nil => intro b; simp [charsPrefixOf]
  | cons x xs ih =>
    intro b
    cases b with
    | nil => simp [charsPrefixOf]
    | cons y ys => simp [charsPrefixOf, List.cons_prefix_cons, ih ys]

theorem charsInfixOf_iff (needle : List Char) :
    ∀ (hay : List Char), charsInfixOf needle hay = true ↔ needle <:+: hay := by
  intro hay
  induction hay with
  | nil => simp [charsInfixOf, charsPrefixOf_iff]
  | cons c cs ih => simp [charsInfixOf, charsPrefixOf_iff, ih, List.infix_cons_iff]

theorem pyIn_iff (needle haystack : String) :
    pyIn needle haystack = true ↔ needle.data <:+: haystack.data := by
  simp [pyIn, charsInfixOf_iff]

/-- Shared size bound: a summary never exceeds the (positive) field budget. -/
theorem summarize_item_length_le (full : List (String × JVal)) {mf : Int}
    (h : 1 ≤ mf) : ((summarize_item full mf).length : Int) ≤ mf := by
  unfold summarize_item
  cases pinId (dictGet full "id") with
  | some v =>
    show ((insertAll [("id", v)] (pyTake (sortedScalars full) (mf - 1))).length : Int) ≤ mf
    have h1 := length_insertAll_le (pyTake (sortedScalars full) (mf - 1)) [("id", v)]
    have h2 := length_pyTake_le (sortedScalars full) (n := mf - 1) (by omega)
    simp only [List.length_cons, List.length_nil] at h1
    omega
  | none =>
    show ((insertAll [] (pyTake (sortedScalars full) mf)).length : Int) ≤ mf
    have h1 := length_insertAll_le (pyTake (sortedScalars full) mf) []
    have h2 := length_pyTake_le (sortedScalars full) (n := mf) (by omega)
    simp only [List.length_nil] at h1
    omega

/-- C1 counterexample: an item whose normalized form binds `"id"` to JSON
null has an `"id"` field, yet the summary drops it entirely (the code tests
`id_value is not None` after `.get`, so a null id is not pinned). -/
theorem summarize_item_null_id_dropped :
    dictGet [("id", JVal.null)] "id" = some JVal.null ∧
    dictGet (summarize_item [("id", JVal.null)] 1) "id" = none :=
  ⟨rfl, rfl⟩

/-- C1 (amended: the `"id"` field's value must be non-null): for every item
whose normalized form binds `"id"` to a non-null value and every
`maxFields ≥ 1`, the summary maps `"id"` to exactly that value — the id is
pinned and never evicted for size reasons. -/
theorem summarize_item_id_pinned (full : List (String × JVal))
    (max_fields : Int) (v : JVal) (hv : dictGet full "id" = some v)
    (hnn : v ≠ JVal.null) (hmf : 1 ≤ max_fields) :
    dictGet (summarize_item full max_fields) "id" = some v := by
  unfold summarize_item
  rw [hv, pinId_some hnn]
  show dictGet (insertAll [("id", v)]
      (pyTake (sortedScalars full) (max_fields - 1))) "id" = some v
  rw [dictGet_insertAll_ne
    (fun kv hkv => mem_sortedScalars_ne_id ((pyTake_sublist _ _).subset hkv))
    [("id", v)]]
  rfl

theorem summarize_item_id_pinned_witness :
    dictGet (summarize_item [("id", JVal.int 7), ("overview", JVal.str "AAAAAAAAAA"),
        ("year", JVal.int 2020)] 1) "id" = some (JVal.int 7) :=
  summarize_item_id_pinned _ 1 (JVal.int 7) rfl (fun h => JVal.noConfusion h)
    (by decide)

/-- C2: for every item and every `maxFields ≥ 1`, the summary holds at most
`maxFields` fields (one slot reserved for a pinned id, the sorted scalar
fields filling at most the remaining budget). -/
theorem summarize_item_size_bound (full : List (String × JVal))
    (max_fields : Int) (h : 1 ≤ max_fields) :
    ((summarize_item full max_fields).length : Int) ≤ max_fields :=
  summarize_item_length_le full h

theorem summarize_item_size_bound_witness :
    ((summarize_item [("id", JVal.int 1), ("title", JVal.str "t"),
        ("year", JVal.int 2024), ("monitored", JVal.bool true)] 2).length : Int) ≤ 2 :=
  summarize_item_size_bound _ 2 (by decide)

/-- C5: whenever the regex compiler rejects the pattern, `grep_filter` fails
with the `ToolError` carrying the original pattern text and the compiler's
diagnostic inside its message, and returns no filtered result. -/
theorem grep_filter_invalid_pattern {R : Type}
    (compileRegex : String → Except String R) (regexSearch : R → String → Bool)
    (items : List (List (String × JVal))) (p e : String)
    (hc : compileRegex p = Except.error e) :
    grep_filter compileRegex regexSearch items (some p) =
      Except.error (invalidPatternMessage p e) ∧
    p.data <:+: (invalidPatternMessage p e).data ∧
    e.data <:+: (invalidPatternMessage p e).data := by
  refine ⟨?_, ?_, ?_⟩
  · show (match compileRegex p with
        | Except.error e => Except.error (invalidPatternMessage p e)
        | Except.ok compiled =>
            Except.ok (items.filter
              (fun item => regexSearch compiled (jsonDump (JVal.obj item))))) =
        Except.error (invalidPatternMessage p e)
    rw [hc]
  · unfold invalidPatternMessage
    exact strInfix_append_left _ (strInfix_append_left _
      (strInfix_append_right _ (strInfix_refl p)))
  · unfold invalidPatternMessage
    exact strInfix_append_right _ (strInfix_refl e)

theorem grep_filter_invalid_pattern_witness :
    grep_filter (fun _ => (Except.error "unterminated bracket" : Except String Unit))
      (fun _ _ => false) [] (some "[invalid") =
      Except.error (invalidPatternMessage "[invalid" "unterminated bracket") :=
  (grep_filter_invalid_pattern
    (fun _ => (Except.error "unterminated bracket" : Except String Unit))
    (fun _ _ => false) [] "[invalid" "unterminated bracket" rfl).1

/-- C8: a null pattern is the identity filter — the whole input collection
is returned unchanged, same elements in the same order, for any regex
engine behaviour. -/
theorem grep_filter_none_identity {R : Type}
    (compileRegex : String → Except String R) (regexSearch : R → String → Bool)
    (items : List (List (String × JVal))) :
    grep_filter compileRegex regexSearch items none = Except.ok items := rfl

/-- C3: the non-id fields the summary selects are exactly a prefix of the
scalar fields stably sorted ascending by the length of their minimal JSON
serialization — the id (when pinned) comes first, the selected fields
follow in ascending-size order, each selected field is no longer than any
unselected scalar field, and fields of equal serialized length keep their
original relative order (stable sort). -/
theorem summarize_item_smallest_selection (full : List (String × JVal))
    (max_fields : Int) (hnd : (full.map Prod.fst).Nodup) :
    (∀ v, dictGet full "id" = some v → v ≠ JVal.null →
      summarize_item full max_fields =
        ("id", v) :: pyTake (sortedScalars full) (max_fields - 1)) ∧
    (pinId (dictGet full "id") = none →
      summarize_item full max_fields = pyTake (sortedScalars full) max_fields) ∧
    (sortedScalars full).Pairwise (fun a b => sortKey a ≤ sortKey b) ∧
    (∀ L : Nat, (sortedScalars full).filter (fun kv => decide (sortKey kv = L)) =
      (scalarFields full).filter (fun kv => decide (sortKey kv = L))) ∧
    (sortedScalars full).Perm (scalarFields full) ∧
    (∀ n : Nat, ∀ kv ∈ (sortedScalars full).take n,
      ∀ kv2 ∈ (sortedScalars full).drop n, sortKey kv ≤ sortKey kv2) := by
  refine ⟨?_, ?_, ?_, ?_, ?_, ?_⟩
  · intro v hv hnn
    exact summarize_item_pinned hv hnn hnd max_fields
  · intro hp
    exact summarize_item_unpinned hp hnd max_fields
  · exact (pySort_pairwise (scalarFields full)).imp
      (fun h => by simpa [sortLE] using h)
  · intro L
    refine pySort_filter_stable ?_ (scalarFields full)
    intro a b ha hb
    simp only [decide_eq_true_eq] at ha hb
    simp [sortLE, ha, hb]
  · exact pySort_perm (scalarFields full)
  · intro n kv hkv kv2 hkv2
    have hp : (sortedScalars full).Pairwise
        (fun a b => sortKey a ≤ sortKey b) :=
      (pySort_pairwise (scalarFields full)).imp
        (fun h => by simpa [sortLE] using h)
    rw [← List.take_append_drop n (sortedScalars full)] at hp
    exact (List.pairwise_append.mp hp).2.2 kv hkv kv2 hkv2

theorem summarize_item_smallest_selection_witness :
    summarize_item [("id", JVal.int 7), ("title", JVal.str "A long example title text"),
        ("year", JVal.int 2020), ("monitored", JVal.bool true)] 3 =
      [("id", JVal.int 7), ("year", JVal.int 2020), ("monitored", JVal.bool true)] :=
  ((summarize_item_smallest_selection
      [("id", JVal.int 7), ("title", JVal.str "A long example title text"),
        ("year", JVal.int 2020), ("monitored", JVal.bool true)] 3 (by decide)).1
    (JVal.int 7) rfl (fun h => JVal.noConfusion h)).trans rfl

/-- C4 counterexample: an aggregate callback that itself returns a
`"total"` binding overwrites the count — on the empty collection the
summary reports total 1 instead of 0. -/
theorem summarize_list_total_overwritten :
    dictGet (summarize_list [] 10
        (some (fun _ => [("total", JVal.int 1)])) none).summary "total" =
      some (JVal.int 1) ∧
    ([] : List (List (String × JVal))).length = 0 ∧
    JVal.int 1 ≠ JVal.int 0 := by
  refine ⟨rfl, rfl, ?_⟩
  intro h
  injection h with h
  exact absurd h (by decide)

/-- C4 (amended: the aggregate callback must not itself bind `"total"`,
which would overwrite the count via `summary.update`): the summary's
`"total"` equals the input length and the items list has the input's
length. -/
theorem summarize_list_total_invariant (items : List (List (String × JVal)))
    (max_fields : Int)
    (summary_fn : Option (List (List (String × JVal)) → List (String × JVal)))
    (preserve_fields : Option (List String))
    (h : ∀ f, summary_fn = some f → ∀ kv ∈ f items, kv.1 ≠ "total") :
    dictGet (summarize_list items max_fields summary_fn preserve_fields).summary
      "total" = some (JVal.int items.length) ∧
    (summarize_list items max_fields summary_fn preserve_fields).items.length =
      items.length := by
  constructor
  · cases summary_fn with
    | none => rfl
    | some f =>
      show dictGet (insertAll [("total", JVal.int items.length)] (f items))
          "total" = some (JVal.int items.length)
      rw [dictGet_insertAll_ne (h f rfl) [("total", JVal.int items.length)]]
      rfl
  · show (items.map (fun it =>
        _summarize_item_with_preserve it max_fields preserve_fields)).length =
      items.length
    exact List.length_map items _

theorem summarize_list_total_invariant_witness :
    dictGet (summarize_list [[("id", JVal.int 3)], [("id", JVal.int 4)]] 10
        none none).summary "total" = some (JVal.int 2) ∧
    (summarize_list [[("id", JVal.int 3)], [("id", JVal.int 4)]] 10
        none none).items.length = 2 :=
  summarize_list_total_invariant [[("id", JVal.int 3)], [("id", JVal.int 4)]] 10
    none none (fun f hf => nomatch hf)

/-- C6: a token that is an `int` or a digit-only string resolves purely
numerically — it returns the token's numeric value exactly when some
candidate carries that identifier and otherwise fails with the NotFound
error; name matching is never attempted for such tokens. -/
theorem resolver_numeric_passthrough (t : NameOrId) (items : List RItem)
    (entity : String) (n : Int) (h : tokenNum t = some n) :
    ((∃ c ∈ items, c.id = n) →
      _resolve_by_name_or_id t items entity = Except.ok n) ∧
    ((∀ c ∈ items, c.id ≠ n) →
      _resolve_by_name_or_id t items entity =
        Except.error (notFoundMessage entity n)) := by
  cases t with
  | int m =>
    have hm : m = n := by simpa [tokenNum] using h
    subst hm
    constructor
    · rintro ⟨c, hc, hid⟩
      have hany : items.any (fun item => decide (item.id = m)) = true :=
        List.any_eq_true.mpr ⟨c, hc, by simpa using hid⟩
      simp [_resolve_by_name_or_id, hany]
    · intro hall
      have hany : items.any (fun item => decide (item.id = m)) = false :=
        List.any_eq_false.mpr (fun c hc => by simpa using hall c hc)
      simp [_resolve_by_name_or_id, hany]
  | str s =>
    by_cases hdig : pyIsDigit s = true
    · have hval : ((digitsToNat s : Int)) = n := by
        have := h
        simp only [tokenNum, hdig, if_true] at this
        exact Option.some_injective _ this
      constructor
      · rintro ⟨c, hc, hid⟩
        have hany : items.any
            (fun item => decide (item.id = (digitsToNat s : Int))) = true :=
          List.any_eq_true.mpr ⟨c, hc, by simp [hval, hid]⟩
        simp [_resolve_by_name_or_id, hdig, hany, hval]
        exact ⟨c, hc, hid⟩
      · intro hall
        have hany : items.any
            (fun item => decide (item.id = (digitsToNat s : Int))) = false :=
          List.any_eq_false.mpr (fun c hc => by simp [hval]; exact hall c hc)
        simp [_resolve_by_name_or_id, hdig, hany, hval]
        exact hall
    · exfalso
      simp [tokenNum, hdig] at h

theorem resolver_numeric_passthrough_witness :
    _resolve_by_name_or_id (NameOrId.str "42") [⟨42, some "HD"⟩, ⟨7, some "SD"⟩]
      "quality profile" = Except.ok 42 ∧
    _resolve_by_name_or_id (NameOrId.int 9) [⟨42, some "HD"⟩, ⟨7, some "SD"⟩]
      "quality profile" = Except.error (notFoundMessage "quality profile" 9) :=
  ⟨(resolver_numeric_passthrough (NameOrId.str "42")
      [⟨42, some "HD"⟩, ⟨7, some "SD"⟩] "quality profile" 42 rfl).1 (by decide),
   (resolver_numeric_passthrough (NameOrId.int 9)
      [⟨42, some "HD"⟩, ⟨7, some "SD"⟩] "quality profile" 9 rfl).2 (by decide)⟩

/-- C7: a non-numeric token matching several candidates — exact
case-insensitive name equality in the generic resolver, case-insensitive
path-substring containment in the root-folder resolver — always throws the
Ambiguous error, whose message enumerates every conflicting candidate as an
`id: name` pair and directs the caller to the numeric id; no matching
identifier is ever returned. -/
theorem resolver_ambiguous_error :
    (∀ (entity tok : String) (items : List RItem),
      pyIsDigit tok = false →
      2 ≤ (nameMatches items (pyLower tok)).length →
      _resolve_by_name_or_id (NameOrId.str tok) items entity =
        Except.error (ambiguousMessage entity tok (nameMatches items (pyLower tok))) ∧
      (∀ m ∈ nameMatches items (pyLower tok),
        (pairString m).data <:+:
          (ambiguousMessage entity tok (nameMatches items (pyLower tok))).data) ∧
      (". Use the numeric ID instead.").data <:+:
        (ambiguousMessage entity tok (nameMatches items (pyLower tok))).data) ∧
    (∀ (tok : String) (folders : List RootFolder),
      pyIsDigit tok = false →
      2 ≤ (folderMatches folders (pyLower tok)).length →
      resolve_root_folder (NameOrId.str tok) folders =
        Except.error (rootAmbiguousMessage tok (folderMatches folders (pyLower tok))) ∧
      (∀ f ∈ folderMatches folders (pyLower tok),
        (folderPair f).data <:+:
          (rootAmbiguousMessage tok (folderMatches folders (pyLower tok))).data) ∧
      (". Use the numeric ID instead.").data <:+:
        (rootAmbiguousMessage tok (folderMatches folders (pyLower tok))).data) := by
  constructor
  · intro entity tok items hd hlen
    rcases hM : nameMatches items (pyLower tok) with _ | ⟨a, _ | ⟨b, rest⟩⟩
    · rw [hM] at hlen
      simp at hlen
    · rw [hM] at hlen
      simp at hlen
    · refine ⟨?_, ?_, ?_⟩
      · simp only [_resolve_by_name_or_id, hd, Bool.false_eq_true, if_false, hM]
      · intro m hm
        unfold ambiguousMessage
        exact strInfix_append_left _ (strInfix_append_right _
          (mem_joinComma (List.mem_map_of_mem pairString hm)))
      · unfold ambiguousMessage
        exact strInfix_append_right _ (strInfix_refl _)
  · intro tok folders hd hlen
    rcases hM : folderMatches folders (pyLower tok) with _ | ⟨a, _ | ⟨b, rest⟩⟩
    · rw [hM] at hlen
      simp at hlen
    · rw [hM] at hlen
      simp at hlen
    · refine ⟨?_, ?_, ?_⟩
      · simp only [resolve_root_folder, hd, Bool.false_eq_true, if_false, hM]
      · intro f hf
        unfold rootAmbiguousMessage
        exact strInfix_append_left _ (strInfix_append_right _
          (mem_joinComma (List.mem_map_of_mem folderPair hf)))
      · unfold rootAmbiguousMessage
        exact strInfix_append_right _ (strInfix_refl _)

theorem resolver_ambiguous_error_witness :
    _resolve_by_name_or_id (NameOrId.str "sci-fi") [⟨1, some "Sci-Fi"⟩, ⟨2, some "sci-fi"⟩]
      "tag" = Except.error (ambiguousMessage "tag" "sci-fi"
        (nameMatches [⟨1, some "Sci-Fi"⟩, ⟨2, some "sci-fi"⟩] (pyLower "sci-fi"))) ∧
    resolve_root_folder (NameOrId.str "/m") [⟨1, some "/movies"⟩, ⟨2, some "/media/4k"⟩] =
      Except.error (rootAmbiguousMessage "/m"
        (folderMatches [⟨1, some "/movies"⟩, ⟨2, some "/media/4k"⟩] (pyLower "/m"))) :=
  ⟨(resolver_ambiguous_error.1 "tag" "sci-fi"
      [⟨1, some "Sci-Fi"⟩, ⟨2, some "sci-fi"⟩] (by decide) (by decide)).1,
   (resolver_ambiguous_error.2 "/m"
      [⟨1, some "/movies"⟩, ⟨2, some "/media/4k"⟩] (by decide) (by decide)).1⟩

/-- C9 counterexample: at `maxFields = 0` with a pinned id, the remaining
budget `-1` is a Python slice `[:-1]` (all but the last element), so the
summary keeps 2 fields while the claimed bound is `0 + 0`. -/
theorem preserve_bound_fails_at_zero :
    (_summarize_item_with_preserve
        [("id", JVal.int 1), ("a", JVal.int 2), ("b", JVal.int 3)] 0
        (some [])).length = 2 ∧
    ¬ ((2 : Int) ≤ 0 + (([] : List String).length : Int)) :=
  ⟨rfl, by decide⟩

/-- C9 (amended: for every `maxFields ≥ 1`): the preserved summary holds at
most `maxFields + len(preserveFields)` fields, and a preserved field absent
from the plain summary is copied verbatim from the full normalized object —
with no scalar check, so a preserved field may carry a container value even
though size-selected fields are always scalars. -/
theorem summarize_preserve_bound_and_verbatim :
    (∀ (full : List (String × JVal)) (max_fields : Int)
        (preserve_fields : Option (List String)), 1 ≤ max_fields →
      ((_summarize_item_with_preserve full max_fields preserve_fields).length : Int) ≤
        max_fields + ((preserve_fields.getD []).length : Int)) ∧
    (∀ (full : List (String × JVal)) (max_fields : Int) (pf : List String)
        (field : String) (v : JVal), field ∈ pf →
      dictGet full field = some v →
      dictGet (summarize_item full max_fields) field = none →
      dictGet (_summarize_item_with_preserve full max_fields (some pf)) field =
        some v) ∧
    (dictGet (_summarize_item_with_preserve
        [("statistics", JVal.obj [("count", JVal.int 5)])] 5 (some ["statistics"]))
        "statistics" = some (JVal.obj [("count", JVal.int 5)]) ∧
      JVal.isScalar (JVal.obj [("count", JVal.int 5)]) = false) := by
  refine ⟨?_, ?_, rfl, rfl⟩
  · intro full max_fields preserve_fields hmf
    cases preserve_fields with
    | none =>
      have h1 := summarize_item_length_le full hmf
      simpa [_summarize_item_with_preserve] using h1
    | some pf =>
      have h1 := length_foldl_preserveStep_le full pf (summarize_item full max_fields)
      have h2 := summarize_item_length_le full hmf
      show ((pf.foldl (preserveStep full) (summarize_item full max_fields)).length : Int) ≤
        max_fields + (((some pf : Option (List String)).getD []).length : Int)
      simp only [Option.getD_some]
      omega
  · intro full max_fields pf field v hmem hfull hnone
    show dictGet (pf.foldl (preserveStep full) (summarize_item full max_fields))
        field = some v
    exact foldl_preserveStep_adds hfull pf (summarize_item full max_fields)
      hmem (Or.inl hnone)

theorem summarize_preserve_bound_and_verbatim_witness :
    ((_summarize_item_with_preserve [("id", JVal.int 1), ("path", JVal.str "/tv/x")]
        2 (some ["path"])).length : Int) ≤
      2 + (((some ["path"] : Option (List String)).getD []).length : Int) ∧
    dictGet (_summarize_item_with_preserve [("tags", JVal.arr [JVal.int 1])] 3
        (some ["tags"])) "tags" = some (JVal.arr [JVal.int 1]) :=
  ⟨summarize_preserve_bound_and_verbatim.1
      [("id", JVal.int 1), ("path", JVal.str "/tv/x")] 2 (some ["path"]) (by decide),
   summarize_preserve_bound_and_verbatim.2.1
      [("tags", JVal.arr [JVal.int 1])] 3 ["tags"] "tags" (JVal.arr [JVal.int 1])
      (by decide) rfl rfl⟩

/-- C10: when a non-digit token's lowercase form occurs in every folder's
path (in particular, the empty token), `resolve_root_folder` never reports
NotFound on a non-empty collection: with a single folder it returns that
folder's id, with two or more it throws the Ambiguous error listing every
folder. -/
theorem root_folder_all_match_behavior (tok : String)
    (folders : List RootFolder) (hne : folders ≠ [])
    (hd : pyIsDigit tok = false)
    (hall : ∀ f ∈ folders, pyIn (pyLower tok) (pyLower (f.path.getD "")) = true) :
    (∀ f, folders = [f] →
      resolve_root_folder (NameOrId.str tok) folders = Except.ok f.id) ∧
    (2 ≤ folders.length →
      resolve_root_folder (NameOrId.str tok) folders =
        Except.error (rootAmbiguousMessage tok folders) ∧
      ∀ f ∈ folders,
        (folderPair f).data <:+: (rootAmbiguousMessage tok folders).data) ∧
    ((∃ i, resolve_root_folder (NameOrId.str tok) folders = Except.ok i) ∨
      resolve_root_folder (NameOrId.str tok) folders =
        Except.error (rootAmbiguousMessage tok folders)) := by
  have hM : folderMatches folders (pyLower tok) = folders :=
    List.filter_eq_self.mpr hall
  have hinfix : ∀ f ∈ folders,
      (folderPair f).data <:+: (rootAmbiguousMessage tok folders).data := by
    intro f hf
    unfold rootAmbiguousMessage
    exact strInfix_append_left _ (strInfix_append_right _
      (mem_joinComma (List.mem_map_of_mem folderPair hf)))
  have heq1 : ∀ f, folders = [f] →
      resolve_root_folder (NameOrId.str tok) folders = Except.ok f.id := by
    intro f hf
    subst hf
    simp only [resolve_root_folder, hd, Bool.false_eq_true, if_false, hM]
  have heq2 : 2 ≤ folders.length →
      resolve_root_folder (NameOrId.str tok) folders =
        Except.error (rootAmbiguousMessage tok folders) := by
    intro h2
    cases folders with
    | nil => exact absurd rfl hne
    | cons a t =>
      cases t with
      | nil => simp at h2
      | cons b rest =>
        simp only [resolve_root_folder, hd, Bool.false_eq_true, if_false, hM]
  refine ⟨heq1, fun h2 => ⟨heq2 h2, hinfix⟩, ?_⟩
  by_cases hl : 2 ≤ folders.length
  · exact Or.inr (heq2 hl)
  · have hlen1 : folders.length = 1 := by
      have hpos : 0 < folders.length := List.length_pos.mpr hne
      omega
    obtain ⟨f, hf⟩ := List.length_eq_one.mp hlen1
    exact Or.inl ⟨f.id, heq1 f hf⟩

theorem root_folder_all_match_behavior_witness :
    resolve_root_folder (NameOrId.str "") [⟨1, some "/tv"⟩, ⟨2, some "/movies"⟩] =
      Except.error (rootAmbiguousMessage "" [⟨1, some "/tv"⟩, ⟨2, some "/movies"⟩]) :=
  ((root_folder_all_match_behavior "" [⟨1, some "/tv"⟩, ⟨2, some "/movies"⟩]
      (by decide) rfl (by decide)).2.1 (by decide)).1
